import Mathlib

/-!
# Verification of the entity_service membership / invitation engine

Shallow embedding of the TypeScript sources of `entity_service`:
  * `src/helpers/EntityMemberHelper.ts` (member add / role update / removal)
  * `src/helpers/InvitationHelper.ts`   (invitation create / accept / decline /
    bulk processing on signup)
  * `src/helpers/EntityHelper.ts`       (personal entity get-or-create)
  * the `PermissionHelper` class        (boolean capability checks)
  * `src/utils/slug-generator.ts`       (slug normalisation / validation)
  * `src/migrations/001_add_entities.ts` (the relational schema: the unique
    `(entity_id, user_id)` constraint on `entity_members`)

The relational store is modelled as lists of rows; SQL `SELECT ... LIMIT 1`
becomes `List.find?` in row order, `UPDATE ... WHERE` becomes `List.map`
guarded by the row predicate, and `INSERT` appends, failing where a unique
constraint of the migration would reject the row.  Timestamps are `Nat`s and
the current time is passed explicitly where the code calls `new Date()`.
`throw new Error(...)` sites are modelled by an error enumeration with one
constructor per distinct message in the source.
-/

deriving instance DecidableEq for Except

namespace EntityService

/-- Roles of the `EntityRole` enumeration (`@sudobility/types`); the current
helpers use `owner` / `admin` / `member`, the legacy `PermissionHelper` also
mentions `manager` and `viewer`. -/
inductive EntityRole where
  | owner
  | admin
  | manager
  | member
  | viewer
deriving DecidableEq, Repr

/-- `EntityType` enumeration: `personal` or `organization`. -/
inductive EntityType where
  | personal
  | organization
deriving DecidableEq, Repr

/-- `InvitationStatus` enumeration. -/
inductive InvitationStatus where
  | pending
  | accepted
  | declined
  | expired
deriving DecidableEq, Repr

/-- A row of the `entities` table (claim-relevant columns). -/
structure EntityRow where
  id : Nat
  entity_slug : String
  entity_type : EntityType
  display_name : String
deriving DecidableEq, Repr

/-- A row of the `entity_members` table (claim-relevant columns). -/
structure MemberRow where
  id : Nat
  entity_id : Nat
  user_id : Nat
  role : EntityRole
  is_active : Bool
deriving DecidableEq, Repr

/-- A row of the `users` table as used by the helpers: the key joined against
`entity_members.user_id`, and the email. -/
structure UserRow where
  uuid : Nat
  email : String
deriving DecidableEq, Repr

/-- A row of the `entity_invitations` table (claim-relevant columns). -/
structure InvitationRow where
  id : Nat
  entity_id : Nat
  email : String
  role : EntityRole
  status : InvitationStatus
  invited_by_user_id : Nat
  token : String
  expires_at : Nat
  accepted_at : Option Nat
deriving DecidableEq, Repr

/-- The relational store reached through the drizzle config: the four tables,
plus counters supplying the ids the database would generate. -/
structure DB where
  entities : List EntityRow
  members : List MemberRow
  invitations : List InvitationRow
  users : List UserRow
  nextEntityId : Nat
  nextMemberId : Nat
  nextInvitationId : Nat
deriving DecidableEq, Repr

/-- Errors thrown by `EntityMemberHelper`, one constructor per `throw` site,
plus the store-level unique-constraint rejection, plus the spec-side
`InvariantViolation` kind (spec section 7), which no code path produces. -/
inductive MemberErr where
  /-- the unique `(entity_id, user_id)` constraint of migration 001 -/
  | uniqueViolation
  /-- message: Cannot assign owner role. Use ownership transfer instead. -/
  | cannotAssignOwner
  /-- message: Cannot change roles in personal entities -/
  | personalRoleChange
  /-- message: Cannot change the owner role (the TS message quotes it
  possessively) -/
  | cannotChangeOwnerRole
  /-- message: Member not found or inactive -/
  | memberNotFoundOrInactive
  /-- message: Cannot remove members from personal entities -/
  | personalRemove
  /-- message: Member not found -/
  | memberNotFound
  /-- message: Cannot remove the entity owner -/
  | cannotRemoveOwner
  /-- the InvariantViolation error kind of the specification (would carry the
  message: cannot remove the only administrator).  Present in the error
  vocabulary so that theorems can state that the code never returns it. -/
  | invariantViolation
deriving DecidableEq, Repr

/-- `SELECT ... FROM entities WHERE id = entityId LIMIT 1`. -/
def getEntityRow (db : DB) (entityId : Nat) : Option EntityRow :=
  db.entities.find? (fun ent => ent.id == entityId)

/-- The personal-entity guard used by `updateMemberRole` / `removeMember`:
`entity.length > 0 && entity[0].entity_type === EntityType.PERSONAL`. -/
def entityIsPersonal (db : DB) (entityId : Nat) : Bool :=
  match getEntityRow db entityId with
  | some ent => ent.entity_type == EntityType.personal
  | none => false

/-- `EntityMemberHelper.getMember`: point lookup of the `(entityId, userId)`
membership, restricted to active rows unless `includeInactive`. -/
def getMember (db : DB) (entityId userId : Nat) (includeInactive : Bool) :
    Option MemberRow :=
  db.members.find? (fun m =>
    m.entity_id == entityId && m.user_id == userId &&
      (includeInactive || m.is_active))

/-- `INSERT INTO entity_members ...`: rejected by the unique
`(entity_id, user_id)` constraint when any row for the pair exists
(migration 001: `UNIQUE(entity_id, user_id)`), regardless of `is_active`. -/
def insertMember (db : DB) (entityId userId : Nat) (role : EntityRole) :
    Except MemberErr (DB × MemberRow) :=
  if db.members.any (fun m => m.entity_id == entityId && m.user_id == userId)
  then Except.error MemberErr.uniqueViolation
  else
    let row : MemberRow :=
      ⟨db.nextMemberId, entityId, userId, role, true⟩
    Except.ok ({ db with
                  members := db.members ++ [row],
                  nextMemberId := db.nextMemberId + 1 }, row)

/-- `EntityMemberHelper.addMember`: reactivate an existing inactive membership
with the new role, otherwise insert a fresh active row. -/
def addMember (db : DB) (entityId userId : Nat) (role : EntityRole) :
    Except MemberErr (DB × MemberRow) :=
  match getMember db entityId userId true with
  | some existing =>
    if existing.is_active then
      insertMember db entityId userId role
    else
      let updated : MemberRow := { existing with role := role, is_active := true }
      Except.ok ({ db with
                    members := db.members.map (fun m =>
                      if m.entity_id == entityId && m.user_id == userId then
                        { m with role := role, is_active := true }
                      else m) }, updated)
  | none => insertMember db entityId userId role

/-- `EntityMemberHelper.updateMemberRole`: cannot assign owner, cannot touch
personal entities, cannot change the owner role; otherwise updates the active
row and fails if none matched. -/
def updateMemberRole (db : DB) (entityId userId : Nat) (role : EntityRole) :
    Except MemberErr (DB × MemberRow) :=
  if role = EntityRole.owner then
    Except.error MemberErr.cannotAssignOwner
  else if entityIsPersonal db entityId then
    Except.error MemberErr.personalRoleChange
  else if (getMember db entityId userId false).elim false
      (fun m => m.role == EntityRole.owner) then
    Except.error MemberErr.cannotChangeOwnerRole
  else
    match getMember db entityId userId false with
    | none => Except.error MemberErr.memberNotFoundOrInactive
    | some current =>
      Except.ok ({ db with
                    members := db.members.map (fun m =>
                      if m.entity_id == entityId && m.user_id == userId &&
                          m.is_active then
                        { m with role := role }
                      else m) }, { current with role := role })

/-- `EntityMemberHelper.removeMember`: soft delete.  Rejects personal
entities, absent active members, and the owner; otherwise sets
`is_active := false` on the `(entityId, userId)` rows (the TS `UPDATE` has no
`is_active` condition). -/
def removeMember (db : DB) (entityId userId : Nat) : Except MemberErr DB :=
  if entityIsPersonal db entityId then
    Except.error MemberErr.personalRemove
  else
    match getMember db entityId userId false with
    | none => Except.error MemberErr.memberNotFound
    | some m =>
      if m.role = EntityRole.owner then
        Except.error MemberErr.cannotRemoveOwner
      else
        Except.ok { db with
                      members := db.members.map (fun x =>
                        if x.entity_id == entityId && x.user_id == userId then
                          { x with is_active := false }
                        else x) }

/-- Count of active memberships of `entityId` holding the top-privilege
(owner) role. -/
def activeOwnerCount (db : DB) (entityId : Nat) : Nat :=
  db.members.countP (fun m =>
    m.entity_id == entityId && m.is_active && m.role == EntityRole.owner)

/-- Count of active memberships of `entityId` holding an admin-tier role
(owner or admin). -/
def activeAdminTierCount (db : DB) (entityId : Nat) : Nat :=
  db.members.countP (fun m =>
    m.entity_id == entityId && m.is_active &&
      (m.role == EntityRole.owner || m.role == EntityRole.admin))

/-- Well-formedness of the members table enforced by the store: no two rows
share an `(entity_id, user_id)` pair (migration 001 unique constraint). -/
def noDupPairs : List MemberRow → Bool
  | [] => true
  | m :: rest =>
    rest.all (fun x => !(x.entity_id == m.entity_id && x.user_id == m.user_id))
        && noDupPairs rest

/-! ## InvitationHelper -/

/-- Errors thrown by `InvitationHelper`, one constructor per `throw` site,
plus the store-level unique-constraint rejection of the member insert
performed inside `acceptInvitation`. -/
inductive InvErr where
  /-- message: User is already a member of this entity -/
  | alreadyMember
  /-- message: An invitation is already pending for this email -/
  | duplicateInvitation
  /-- message: Invitation not found -/
  | notFound
  /-- message: Invitation is no longer pending -/
  | notPending
  /-- message: Invitation has expired -/
  | expired
  /-- the unique `(entity_id, user_id)` constraint hit by the plain member
  insert inside `acceptInvitation` -/
  | memberInsertConflict
deriving DecidableEq, Repr

/-- The membership check of `createInvitation`: members joined with users on
`entity_members.user_id = users.uuid`, filtered by entity and email.  The TS
query has no `is_active` condition. -/
def memberRowForEmail (db : DB) (entityId : Nat) (email : String) : Bool :=
  db.users.any (fun usr => usr.email == email &&
    db.members.any (fun m => m.entity_id == entityId && m.user_id == usr.uuid))

/-- The duplicate check of `createInvitation`: a pending invitation for
`(entityId, email)`. -/
def pendingInvitationExists (db : DB) (entityId : Nat) (email : String) : Bool :=
  db.invitations.any (fun i => i.entity_id == entityId && i.email == email &&
    i.status == InvitationStatus.pending)

/-- `InvitationHelper.createInvitation`.  The random token and the computed
expiry (`calculateInvitationExpiry()`, now + 7 days) are passed in as the
values the generators returned. -/
def createInvitation (db : DB) (entityId invitedBy : Nat)
    (email : String) (role : EntityRole) (token : String) (expiresAt : Nat) :
    Except InvErr (DB × InvitationRow) :=
  if memberRowForEmail db entityId email then
    Except.error InvErr.alreadyMember
  else if pendingInvitationExists db entityId email then
    Except.error InvErr.duplicateInvitation
  else
    let row : InvitationRow :=
      ⟨db.nextInvitationId, entityId, email, role, InvitationStatus.pending,
        invitedBy, token, expiresAt, none⟩
    Except.ok ({ db with
                  invitations := db.invitations ++ [row],
                  nextInvitationId := db.nextInvitationId + 1 }, row)

/-- `InvitationHelper.getInvitationByToken`. -/
def getInvitationByToken (db : DB) (token : String) : Option InvitationRow :=
  db.invitations.find? (fun i => i.token == token)

/-- `UPDATE entity_invitations SET status = ... WHERE id = ...`. -/
def setInvitationStatus (db : DB) (invId : Nat) (status : InvitationStatus)
    (acceptedAt : Option Nat) : DB :=
  { db with invitations := db.invitations.map (fun i =>
      if i.id == invId then
        { i with status := status,
                 accepted_at := acceptedAt.elim i.accepted_at some }
      else i) }

/-- `InvitationHelper.acceptInvitation`.  Returns the post-call store together
with the outcome: the expired branch persists `status := expired` before
throwing, so failures still carry their side effects.  The membership insert
is the plain `db.insert(membersTable).values({entity_id, user_id, role})` of
the source — no reactivation branch; `is_active` takes the schema default
`true`. -/
def acceptInvitation (db : DB) (token : String) (userId now : Nat) :
    DB × Except InvErr Unit :=
  match getInvitationByToken db token with
  | none => (db, Except.error InvErr.notFound)
  | some inv =>
    if inv.status ≠ InvitationStatus.pending then
      (db, Except.error InvErr.notPending)
    else if inv.expires_at < now then
      (setInvitationStatus db inv.id InvitationStatus.expired none,
        Except.error InvErr.expired)
    else if db.members.any (fun m =>
        m.entity_id == inv.entity_id && m.user_id == userId) then
      (db, Except.error InvErr.memberInsertConflict)
    else
      let row : MemberRow :=
        ⟨db.nextMemberId, inv.entity_id, userId, inv.role, true⟩
      let db1 : DB := { db with
                          members := db.members ++ [row],
                          nextMemberId := db.nextMemberId + 1 }
      (setInvitationStatus db1 inv.id InvitationStatus.accepted (some now),
        Except.ok ())

/-- `InvitationHelper.declineInvitation`. -/
def declineInvitation (db : DB) (token : String) : Except InvErr DB :=
  match getInvitationByToken db token with
  | none => Except.error InvErr.notFound
  | some inv =>
    if inv.status ≠ InvitationStatus.pending then
      Except.error InvErr.notPending
    else
      Except.ok (setInvitationStatus db inv.id InvitationStatus.declined none)

/-- `InvitationHelper.getUserPendingInvitations`: pending invitations for the
email, inner-joined with their entity. -/
def getUserPendingInvitations (db : DB) (email : String) : List InvitationRow :=
  db.invitations.filter (fun i => i.email == email &&
    i.status == InvitationStatus.pending && (getEntityRow db i.entity_id).isSome)

/-- The loop body of `processNewUserInvitations`: each `acceptInvitation` call
is wrapped in try/catch, so the error is dropped and the post-call store
(side effects of the failed attempt included) is carried to the next step. -/
def processInvList (userId now : Nat) : DB → List InvitationRow → DB
  | db, [] => db
  | db, inv :: rest =>
    processInvList userId now (acceptInvitation db inv.token userId now).1 rest

/-- `InvitationHelper.processNewUserInvitations`: fetch the pending
invitations once, then attempt each in isolation.  Total: the function has no
error channel, matching the TS catch-and-log. -/
def processNewUserInvitations (db : DB) (userId : Nat) (email : String)
    (now : Nat) : DB :=
  processInvList userId now db (getUserPendingInvitations db email)

/-! ## EntityHelper -/

/-- `EntityHelper.createPersonalEntity`: inserts a personal entity and an
active owner membership for the user.  The random slug produced by
`generateEntitySlug()` and the display name derived from the email are passed
in as values.  The fresh entity id makes the member insert conflict-free, so
both inserts are plain appends, as in the source. -/
def createPersonalEntity (db : DB) (userId : Nat)
    (slug displayName : String) : DB × EntityRow :=
  let ent : EntityRow :=
    ⟨db.nextEntityId, slug, EntityType.personal, displayName⟩
  let mem : MemberRow :=
    ⟨db.nextMemberId, ent.id, userId, EntityRole.owner, true⟩
  ({ db with
      entities := db.entities ++ [ent],
      members := db.members ++ [mem],
      nextEntityId := db.nextEntityId + 1,
      nextMemberId := db.nextMemberId + 1 }, ent)

/-- The lookup of `getOrCreatePersonalEntity`: first membership row of the
user with the owner role, active, joined to an entity of personal type
(`LIMIT 1` over the members-entities join). -/
def lookupPersonalEntity (db : DB) (userId : Nat) : Option EntityRow :=
  (db.members.find? (fun m =>
      m.user_id == userId && m.role == EntityRole.owner && m.is_active &&
        (match getEntityRow db m.entity_id with
          | some ent => ent.entity_type == EntityType.personal
          | none => false))).bind
    (fun m => getEntityRow db m.entity_id)

/-- `EntityHelper.getOrCreatePersonalEntity`: return the existing personal
entity where the user is an active owner, else create one. -/
def getOrCreatePersonalEntity (db : DB) (userId : Nat)
    (slug displayName : String) : DB × EntityRow :=
  match lookupPersonalEntity db userId with
  | some ent => (db, ent)
  | none => createPersonalEntity db userId slug displayName

/-- Freshness of the generated ids: the entity id about to be assigned is not
referenced anywhere yet.  Holds for every store in which ids were produced by
the id counters. -/
def freshEntityId (db : DB) : Bool :=
  db.entities.all (fun ent => ent.id ≠ db.nextEntityId) &&
    db.members.all (fun m => m.entity_id ≠ db.nextEntityId)

/-! ## PermissionHelper -/

/-- The capability record `EntityPermissions` (claim-relevant fields of the
fixed role-capability table). -/
structure EntityPermissions where
  canViewEntity : Bool
  canEditEntity : Bool
  canDeleteEntity : Bool
  canManageMembers : Bool
  canInviteMembers : Bool
deriving DecidableEq, Repr

/-- Modelled from the spec: `ROLE_PERMISSIONS` lives in the external
`@sudobility/types` package and is not part of this repository's sources.
Values follow the role-permission tables of the repository README files and
spec section 4.5: the top-privilege roles (owner, admin) hold every
capability, while manager / member / viewer never hold delete, manage-members
or invite-members. -/
def ROLE_PERMISSIONS : EntityRole → EntityPermissions
  | EntityRole.owner => ⟨true, true, true, true, true⟩
  | EntityRole.admin => ⟨true, true, true, true, true⟩
  | EntityRole.manager => ⟨true, false, false, false, false⟩
  | EntityRole.member => ⟨true, false, false, false, false⟩
  | EntityRole.viewer => ⟨true, false, false, false, false⟩

/-- `PermissionHelper.getUserRole`: membership lookup without any `is_active`
condition (unlike `EntityMemberHelper.getUserRole`). -/
def permGetUserRole (db : DB) (entityId userId : Nat) : Option EntityRole :=
  (db.members.find? (fun m =>
    m.entity_id == entityId && m.user_id == userId)).map (fun m => m.role)

/-- `PermissionHelper.getUserPermissions`:
`permissions = role.map(ROLE_PERMISSIONS)`. -/
def getUserPermissions (db : DB) (entityId userId : Nat) :
    Option EntityPermissions :=
  (permGetUserRole db entityId userId).map ROLE_PERMISSIONS

/-- `PermissionHelper.canDeleteEntity`: false for an absent entity, false for
a personal entity, else the role capability. -/
def canDeleteEntity (db : DB) (entityId userId : Nat) : Bool :=
  match getEntityRow db entityId with
  | none => false
  | some ent =>
    if ent.entity_type == EntityType.personal then false
    else (getUserPermissions db entityId userId).elim false
      (fun p => p.canDeleteEntity)

/-- `PermissionHelper.canManageMembers`: consults only the role capability —
the source has no personal-entity branch here. -/
def canManageMembers (db : DB) (entityId userId : Nat) : Bool :=
  (getUserPermissions db entityId userId).elim false (fun p => p.canManageMembers)

/-- `PermissionHelper.canInviteMembers`: false for an absent entity, false
for a personal entity, else the role capability. -/
def canInviteMembers (db : DB) (entityId userId : Nat) : Bool :=
  match getEntityRow db entityId with
  | none => false
  | some ent =>
    if ent.entity_type == EntityType.personal then false
    else (getUserPermissions db entityId userId).elim false
      (fun p => p.canInviteMembers)

/-! ## slug-generator -/

/-- Membership in the slug alphabet `[a-z0-9]`. -/
def isSlugChar (c : Char) : Bool :=
  (Char.ofNat 97 ≤ c && c ≤ Char.ofNat 122) ||
    (Char.ofNat 48 ≤ c && c ≤ Char.ofNat 57)

/-- The lowercase-and-strip phase of `normalizeSlug`:
`input.toLowerCase().replace(/[^a-z0-9]/g, '')` at character level. -/
def slugFilter (s : String) : List Char :=
  (s.data.map Char.toLower).filter isSlugChar

/-- `normalizeSlug`: lowercase, strip characters outside `[a-z0-9]`, truncate
to 12 characters. -/
def normalizeSlug (s : String) : String :=
  String.mk ((slugFilter s).take 12)

/-- `validateSlug`: the regex `^[a-z0-9]{8,12}$`. -/
def validateSlug (s : String) : Bool :=
  8 ≤ s.length && s.length ≤ 12 && s.data.all isSlugChar

/-! ## Generic list lemmas -/

/-- A pointwise map that never destroys a counted element cannot decrease the
count. -/
theorem countP_le_countP_map {α : Type} (l : List α) (f : α → α) (p : α → Bool)
    (h : ∀ a ∈ l, p a = true → p (f a) = true) :
    l.countP p ≤ (l.map f).countP p := by
  induction l with
  | nil => simp
  | cons a t ih =>
    have ht := ih (fun x hx hp => h x (List.mem_cons_of_mem a hx) hp)
    simp only [List.map_cons, List.countP_cons]
    by_cases hp : p a = true
    · have hfa : p (f a) = true := h a (List.mem_cons_self a t) hp
      simp only [hp, hfa, if_true]
      omega
    · simp only [Bool.not_eq_true] at hp
      simp only [hp, Bool.false_eq_true, if_false]
      by_cases hfa : p (f a) = true <;> simp only [hfa] <;> omega

/-- Appending rows cannot decrease the count. -/
theorem countP_le_countP_append {α : Type} (l₁ l₂ : List α) (p : α → Bool) :
    l₁.countP p ≤ (l₁ ++ l₂).countP p := by
  rw [List.countP_append]
  omega

/-! ## Lemmas about the unique-pair constraint -/

/-- Under the unique `(entity_id, user_id)` constraint, two member rows of the
table with the same pair are the same row. -/
theorem noDupPairs_eq_of_mem {l : List MemberRow} (h : noDupPairs l = true)
    {a b : MemberRow} (ha : a ∈ l) (hb : b ∈ l)
    (he : a.entity_id = b.entity_id) (hu : a.user_id = b.user_id) : a = b := by
  induction l with
  | nil => cases ha
  | cons m t ih =>
    simp only [noDupPairs, Bool.and_eq_true, List.all_eq_true] at h
    obtain ⟨hall, ht⟩ := h
    rcases List.mem_cons.mp ha with rfl | ha'
    · rcases List.mem_cons.mp hb with rfl | hb'
      · rfl
      · exfalso
        have hc := hall b hb'
        simp only [← he, ← hu, beq_self_eq_true, Bool.and_self,
          Bool.not_true] at hc
        exact Bool.false_ne_true hc
    · rcases List.mem_cons.mp hb with rfl | hb'
      · exfalso
        have hc := hall a ha'
        simp only [he, hu, beq_self_eq_true, Bool.and_self,
          Bool.not_true] at hc
        exact Bool.false_ne_true hc
      · exact ih ht ha' hb'

/-- A map that preserves the `(entity_id, user_id)` pair preserves the
constraint. -/
theorem noDupPairs_map {l : List MemberRow} (f : MemberRow → MemberRow)
    (hf : ∀ a : MemberRow, (f a).entity_id = a.entity_id ∧
      (f a).user_id = a.user_id)
    (h : noDupPairs l = true) : noDupPairs (l.map f) = true := by
  induction l with
  | nil => rfl
  | cons m t ih =>
    simp only [noDupPairs, Bool.and_eq_true, List.all_eq_true] at h
    obtain ⟨hall, ht⟩ := h
    simp only [List.map_cons, noDupPairs, Bool.and_eq_true, List.all_eq_true]
    refine ⟨?_, ih ht⟩
    intro x hx
    obtain ⟨y, hy, rfl⟩ := List.mem_map.mp hx
    have hc := hall y hy
    simpa only [(hf y).1, (hf y).2, (hf m).1, (hf m).2] using hc

/-- Appending a row whose pair is unused preserves the constraint. -/
theorem noDupPairs_append {l : List MemberRow} {x : MemberRow}
    (h : noDupPairs l = true)
    (hx : ∀ m ∈ l, ¬(m.entity_id = x.entity_id ∧ m.user_id = x.user_id)) :
    noDupPairs (l ++ [x]) = true := by
  induction l with
  | nil => simp [noDupPairs]
  | cons m t ih =>
    simp only [noDupPairs, Bool.and_eq_true, List.all_eq_true] at h
    obtain ⟨hall, ht⟩ := h
    have hx' : ∀ y ∈ t, ¬(y.entity_id = x.entity_id ∧ y.user_id = x.user_id) :=
      fun y hy => hx y (List.mem_cons_of_mem m hy)
    simp only [List.cons_append, noDupPairs, Bool.and_eq_true,
      List.all_eq_true]
    refine ⟨?_, ih ht hx'⟩
    intro y hy
    rcases List.mem_append.mp hy with hyt | hyx
    · exact hall y hyt
    · have hxm := hx m (List.mem_cons_self m t)
      have hyeq : y = x := List.mem_singleton.mp hyx
      subst hyeq
      simp only [Bool.not_eq_true', Bool.and_eq_false_iff]
      by_cases he : y.entity_id = m.entity_id
      · right
        have : ¬ y.user_id = m.user_id := fun hu => hxm ⟨he.symm, hu.symm⟩
        simpa using this
      · left
        simpa using he

/-! ## Reachable sequences of membership operations -/

/-- The membership operations of claim C1: member addition, role update,
member removal and invitation acceptance. -/
inductive Op where
  | add (entityId userId : Nat) (role : EntityRole)
  | updateRole (entityId userId : Nat) (role : EntityRole)
  | remove (entityId userId : Nat)
  | accept (token : String) (userId now : Nat)
deriving DecidableEq, Repr

/-- Run a member-helper call: a thrown error leaves the store unchanged. -/
def runMemberCall (db : DB) (r : Except MemberErr (DB × MemberRow)) : DB :=
  match r with
  | Except.ok (d, _) => d
  | Except.error _ => db

/-- Run a removal call: a thrown error leaves the store unchanged. -/
def runRemoveCall (db : DB) (r : Except MemberErr DB) : DB :=
  match r with
  | Except.ok d => d
  | Except.error _ => db

/-- Apply one operation to the store. -/
def applyOp (db : DB) : Op → DB
  | Op.add e u r => runMemberCall db (addMember db e u r)
  | Op.updateRole e u r => runMemberCall db (updateMemberRole db e u r)
  | Op.remove e u => runRemoveCall db (removeMember db e u)
  | Op.accept t u now => (acceptInvitation db t u now).1

/-- Apply a sequence of operations to the store. -/
def applyOps (db : DB) (ops : List Op) : DB :=
  ops.foldl applyOp db

/-- The preservation property threaded through every operation: the
unique-pair constraint still holds and no entity lost active owners. -/
def Preserves (db db' : DB) : Prop :=
  noDupPairs db'.members = true ∧
    ∀ ent, activeOwnerCount db ent ≤ activeOwnerCount db' ent

theorem preserves_refl (db : DB) (hwf : noDupPairs db.members = true) :
    Preserves db db :=
  ⟨hwf, fun _ => le_refl _⟩

/-- `insertMember` preserves the constraint and the owner counts. -/
theorem insertMember_preserves (db : DB) (e u : Nat) (r : EntityRole)
    (hwf : noDupPairs db.members = true) :
    Preserves db (runMemberCall db (insertMember db e u r)) := by
  unfold insertMember
  split
  · exact preserves_refl db hwf
  · next hany =>
    constructor
    · show noDupPairs (db.members ++ [⟨db.nextMemberId, e, u, r, true⟩]) = true
      apply noDupPairs_append hwf
      intro m hm hpair
      have := (List.any_eq_false.mp (Bool.of_not_eq_true hany)) m hm
      simp only [hpair.1, hpair.2, beq_self_eq_true, Bool.and_self] at this
      exact this trivial
    · intro ent
      exact countP_le_countP_append _ _ _

/-- `addMember` preserves the constraint and the owner counts: the insert
branch only appends, and the reactivation branch only touches the unique
`(entityId, userId)` row, which was inactive. -/
theorem addMember_preserves (db : DB) (e u : Nat) (r : EntityRole)
    (hwf : noDupPairs db.members = true) :
    Preserves db (runMemberCall db (addMember db e u r)) := by
  unfold addMember
  cases hfind : getMember db e u true with
  | none => exact insertMember_preserves db e u r hwf
  | some ex =>
    have hexmem : ex ∈ db.members := List.mem_of_find?_eq_some hfind
    have hexpred := List.find?_some hfind
    simp only [Bool.true_or, Bool.and_true, Bool.and_eq_true, beq_iff_eq]
      at hexpred
    by_cases hact : ex.is_active = true
    · simp only [hact, if_true]
      exact insertMember_preserves db e u r hwf
    · simp only [Bool.not_eq_true] at hact
      simp only [hact, Bool.false_eq_true, if_false]
      constructor
      · show noDupPairs (db.members.map _) = true
        apply noDupPairs_map _ _ hwf
        intro a
        by_cases hc : (a.entity_id == e && a.user_id == u) = true <;>
          simp [hc]
      · intro ent
        apply countP_le_countP_map
        intro m hm hp
        by_cases hc : (m.entity_id == e && m.user_id == u) = true
        · exfalso
          simp only [Bool.and_eq_true, beq_iff_eq] at hc
          have hme : m = ex := noDupPairs_eq_of_mem hwf hm hexmem
            (hc.1.trans hexpred.1.symm) (hc.2.trans hexpred.2.symm)
          simp only [Bool.and_eq_true, beq_iff_eq] at hp
          rw [hme, hact] at hp
          exact Bool.false_ne_true hp.1.2
        · simpa only [hc, if_false] using hp

/-- `updateMemberRole` preserves the constraint and the owner counts: the
update only touches the unique active `(entityId, userId)` row, whose role
was checked to not be owner, and writes a non-owner role. -/
theorem updateMemberRole_preserves (db : DB) (e u : Nat) (r : EntityRole)
    (hwf : noDupPairs db.members = true) :
    Preserves db (runMemberCall db (updateMemberRole db e u r)) := by
  unfold updateMemberRole
  by_cases hro : r = EntityRole.owner
  · simp only [hro, if_pos rfl]
    exact preserves_refl db hwf
  · rw [if_neg hro]
    by_cases hpe : entityIsPersonal db e = true
    · simp only [hpe, if_true]
      exact preserves_refl db hwf
    · simp only [Bool.not_eq_true] at hpe
      simp only [hpe, Bool.false_eq_true, if_false]
      by_cases how : (getMember db e u false).elim false
          (fun m => m.role == EntityRole.owner) = true
      · simp only [how, if_true]
        exact preserves_refl db hwf
      · simp only [Bool.not_eq_true] at how
        simp only [how, Bool.false_eq_true, if_false]
        cases hfind : getMember db e u false with
        | none => exact preserves_refl db hwf
        | some current =>
          have hcmem : current ∈ db.members := List.mem_of_find?_eq_some hfind
          have hcpred := List.find?_some hfind
          simp only [Bool.false_or, Bool.and_eq_true, beq_iff_eq] at hcpred
          rw [hfind] at how
          simp only [Option.elim_some, beq_eq_false_iff_ne, ne_eq] at how
          constructor
          · show noDupPairs (db.members.map _) = true
            apply noDupPairs_map _ _ hwf
            intro a
            by_cases hc : (a.entity_id == e && a.user_id == u &&
                a.is_active) = true <;> simp [hc]
          · intro ent
            apply countP_le_countP_map
            intro m hm hp
            by_cases hc : (m.entity_id == e && m.user_id == u &&
                m.is_active) = true
            · exfalso
              simp only [Bool.and_eq_true, beq_iff_eq] at hc
              have hme : m = current := noDupPairs_eq_of_mem hwf hm hcmem
                (hc.1.1.trans hcpred.1.1.symm) (hc.1.2.trans hcpred.1.2.symm)
              simp only [Bool.and_eq_true, beq_iff_eq] at hp
              exact how (hme ▸ hp.2)
            · simpa only [hc, if_false] using hp

/-- `removeMember` preserves the constraint and the owner counts: the update
only touches the unique `(entityId, userId)` row, whose role was checked to
not be owner. -/
theorem removeMember_preserves (db : DB) (e u : Nat)
    (hwf : noDupPairs db.members = true) :
    Preserves db (runRemoveCall db (removeMember db e u)) := by
  unfold removeMember
  by_cases hpe : entityIsPersonal db e = true
  · simp only [hpe, if_true]
    exact preserves_refl db hwf
  · simp only [Bool.not_eq_true] at hpe
    simp only [hpe, Bool.false_eq_true, if_false]
    cases hfind : getMember db e u false with
    | none => exact preserves_refl db hwf
    | some m0 =>
      have hmmem : m0 ∈ db.members := List.mem_of_find?_eq_some hfind
      have hmpred := List.find?_some hfind
      simp only [Bool.false_or, Bool.and_eq_true, beq_iff_eq] at hmpred
      dsimp only
      by_cases how : m0.role = EntityRole.owner
      · rw [if_pos how]
        exact preserves_refl db hwf
      · rw [if_neg how]
        constructor
        · show noDupPairs (db.members.map _) = true
          apply noDupPairs_map _ _ hwf
          intro a
          by_cases hc : (a.entity_id == e && a.user_id == u) = true <;>
            simp [hc]
        · intro ent
          apply countP_le_countP_map
          intro m hm hp
          by_cases hc : (m.entity_id == e && m.user_id == u) = true
          · exfalso
            simp only [Bool.and_eq_true, beq_iff_eq] at hc
            simp only [Bool.and_eq_true, beq_iff_eq] at hp
            have hme : m = m0 := noDupPairs_eq_of_mem hwf hm hmmem
              (hc.1.trans hmpred.1.1.symm) (hc.2.trans hmpred.1.2.symm)
            exact how (hme ▸ hp.2)
          · simpa only [hc, if_false] using hp

/-- `acceptInvitation` preserves the constraint and the owner counts: the
failure branches touch only the invitations table, and the success branch
appends a fresh membership guarded by the unique-pair constraint. -/
theorem acceptInvitation_preserves (db : DB) (t : String) (u now : Nat)
    (hwf : noDupPairs db.members = true) :
    Preserves db (acceptInvitation db t u now).1 := by
  unfold acceptInvitation
  cases hfind : getInvitationByToken db t with
  | none => exact preserves_refl db hwf
  | some inv =>
    dsimp only
    by_cases hst : inv.status ≠ InvitationStatus.pending
    · rw [if_pos hst]
      exact preserves_refl db hwf
    · rw [if_neg hst]
      by_cases hexp : inv.expires_at < now
      · rw [if_pos hexp]
        exact preserves_refl db hwf
      · rw [if_neg hexp]
        by_cases hany : (db.members.any fun m =>
            m.entity_id == inv.entity_id && m.user_id == u) = true
        · rw [if_pos hany]
          exact preserves_refl db hwf
        · rw [if_neg hany]
          replace hany : (db.members.any fun m =>
              m.entity_id == inv.entity_id && m.user_id == u) = false :=
            Bool.of_not_eq_true hany
          constructor
          · show noDupPairs (db.members ++ [_]) = true
            apply noDupPairs_append hwf
            intro m hm hpair
            have := (List.any_eq_false.mp hany) m hm
            simp only [hpair.1, hpair.2, beq_self_eq_true, Bool.and_self]
              at this
            exact this trivial
          · intro ent
            exact countP_le_countP_append _ _ _

/-- Every operation of the sequence preserves the constraint and the owner
counts. -/
theorem applyOp_preserves (db : DB) (op : Op)
    (hwf : noDupPairs db.members = true) :
    Preserves db (applyOp db op) := by
  cases op with
  | add e u r => exact addMember_preserves db e u r hwf
  | updateRole e u r => exact updateMemberRole_preserves db e u r hwf
  | remove e u => exact removeMember_preserves db e u hwf
  | accept t u now => exact acceptInvitation_preserves db t u now hwf

/-- Preservation extends to arbitrary sequences of operations. -/
theorem applyOps_preserves (ops : List Op) (db : DB)
    (hwf : noDupPairs db.members = true) :
    Preserves db (applyOps db ops) := by
  induction ops generalizing db with
  | nil => exact preserves_refl db hwf
  | cons op rest ih =>
    have h1 := applyOp_preserves db op hwf
    have h2 := ih (applyOp db op) h1.1
    exact ⟨h2.1, fun ent => le_trans (h1.2 ent) (h2.2 ent)⟩

/-! ## Claim C1 -/

/-- An organization whose only member is its owner (user 5). -/
def dbSoleOwner : DB :=
  { entities := [⟨0, "acmeacme", EntityType.organization, "Acme"⟩],
    members := [⟨0, 0, 5, EntityRole.owner, true⟩],
    invitations := [],
    users := [],
    nextEntityId := 1, nextMemberId := 1, nextInvitationId := 1 }

/-- C1, counterexample: on an organization whose sole active owner is user 5,
removing or demoting that owner is rejected — but with the
owner-immutability errors of the source (messages: Cannot remove the entity
owner / the owner role cannot be changed), not with the InvariantViolation
kind the claim names; no code path produces that kind. -/
theorem lastOwner_rejection_is_not_invariantViolation :
    removeMember dbSoleOwner 0 5 = Except.error MemberErr.cannotRemoveOwner ∧
    updateMemberRole dbSoleOwner 0 5 EntityRole.member =
      Except.error MemberErr.cannotChangeOwnerRole ∧
    MemberErr.cannotRemoveOwner ≠ MemberErr.invariantViolation ∧
    MemberErr.cannotChangeOwnerRole ≠ MemberErr.invariantViolation := by
  refine ⟨by decide, by decide, by decide, by decide⟩

/-- C1 (amended): under the store's unique `(entity_id, user_id)` constraint,
every sequence of `addMember` / `updateMemberRole` / `removeMember` /
`acceptInvitation` operations keeps the count of active owner memberships of
every entity at least 1; `updateMemberRole` and `removeMember` reject every
operation targeting an active owner — the only operations that could lower
the count — returning the owner-immutability errors `cannotChangeOwnerRole`
and `cannotRemoveOwner` (not an InvariantViolation kind, which the code does
not define). -/
theorem ownerInvariant_preserved_and_guarded :
    (∀ (db : DB) (ent : Nat) (ops : List Op),
        noDupPairs db.members = true →
        1 ≤ activeOwnerCount db ent →
        1 ≤ activeOwnerCount (applyOps db ops) ent) ∧
    (∀ (db : DB) (e u : Nat) (r : EntityRole) (m : MemberRow),
        entityIsPersonal db e = false →
        getMember db e u false = some m →
        m.role = EntityRole.owner →
        r ≠ EntityRole.owner →
        updateMemberRole db e u r =
          Except.error MemberErr.cannotChangeOwnerRole) ∧
    (∀ (db : DB) (e u : Nat) (m : MemberRow),
        entityIsPersonal db e = false →
        getMember db e u false = some m →
        m.role = EntityRole.owner →
        removeMember db e u = Except.error MemberErr.cannotRemoveOwner) := by
  refine ⟨?_, ?_, ?_⟩
  · intro db ent ops hwf hone
    exact le_trans hone ((applyOps_preserves ops db hwf).2 ent)
  · intro db e u r m hpe hfind hrole hr
    unfold updateMemberRole
    rw [if_neg hr, if_neg (by simp [hpe] : ¬ entityIsPersonal db e = true)]
    rw [hfind]
    simp [hrole]
  · intro db e u m hpe hfind hrole
    unfold removeMember
    rw [if_neg (by simp [hpe] : ¬ entityIsPersonal db e = true)]
    rw [hfind]
    dsimp only
    rw [if_pos hrole]

/-- C1, witness: the amended theorem applied to the sole-owner organization
and a concrete three-step operation sequence. -/
theorem ownerInvariant_preserved_and_guarded_witness :
    1 ≤ activeOwnerCount (applyOps dbSoleOwner
      [Op.add 0 6 EntityRole.admin, Op.updateRole 0 6 EntityRole.member,
        Op.remove 0 6]) 0 ∧
    updateMemberRole dbSoleOwner 0 5 EntityRole.admin =
      Except.error MemberErr.cannotChangeOwnerRole ∧
    removeMember dbSoleOwner 0 5 = Except.error MemberErr.cannotRemoveOwner := by
  refine ⟨?_, ?_, ?_⟩
  · exact ownerInvariant_preserved_and_guarded.1 dbSoleOwner 0
      [Op.add 0 6 EntityRole.admin, Op.updateRole 0 6 EntityRole.member,
        Op.remove 0 6] (by decide) (by decide)
  · exact ownerInvariant_preserved_and_guarded.2.1 dbSoleOwner 0 5
      EntityRole.admin ⟨0, 0, 5, EntityRole.owner, true⟩
      (by decide) (by decide) rfl (by decide)
  · exact ownerInvariant_preserved_and_guarded.2.2 dbSoleOwner 0 5
      ⟨0, 0, 5, EntityRole.owner, true⟩ (by decide) (by decide) rfl

/-! ## Claim C3 -/

/-- An organization whose only admin-tier member is the admin user 3 (user 4
is a plain member). -/
def dbLastAdmin : DB :=
  { entities := [⟨0, "orgslug1", EntityType.organization, "Org"⟩],
    members := [⟨0, 0, 3, EntityRole.admin, true⟩,
                ⟨1, 0, 4, EntityRole.member, true⟩],
    invitations := [],
    users := [],
    nextEntityId := 1, nextMemberId := 2, nextInvitationId := 1 }

/-- The store after removing user 3 from `dbLastAdmin`. -/
def dbLastAdminAfter : DB :=
  { dbLastAdmin with
      members := [⟨0, 0, 3, EntityRole.admin, false⟩,
                  ⟨1, 0, 4, EntityRole.member, true⟩] }

/-- C3, counterexample: user 3 is the last active admin-tier member of the
organization, yet `removeMember` succeeds — no InvariantViolation, and the
count of active admin-tier members drops to zero. -/
theorem removeMember_removes_last_adminTier_member :
    activeAdminTierCount dbLastAdmin 0 = 1 ∧
    removeMember dbLastAdmin 0 3 = Except.ok dbLastAdminAfter ∧
    activeAdminTierCount dbLastAdminAfter 0 = 0 := by
  refine ⟨by decide, by decide, by decide⟩

/-- C3 (amended): `removeMember` performs no last-administrator check: it
never returns an InvariantViolation, and whenever the target is an active
non-owner member of a non-personal entity the removal succeeds and
deactivates the row — even when the target is the last active admin-tier
member. -/
theorem removeMember_has_no_lastAdmin_guard :
    (∀ (db : DB) (e u : Nat),
        removeMember db e u ≠ Except.error MemberErr.invariantViolation) ∧
    (∀ (db : DB) (e u : Nat) (m : MemberRow),
        entityIsPersonal db e = false →
        getMember db e u false = some m →
        m.role ≠ EntityRole.owner →
        removeMember db e u = Except.ok { db with
          members := db.members.map (fun x =>
            if x.entity_id == e && x.user_id == u then
              { x with is_active := false }
            else x) }) := by
  constructor
  · intro db e u
    unfold removeMember
    by_cases hpe : entityIsPersonal db e = true
    · simp [hpe]
    · simp only [Bool.not_eq_true] at hpe
      simp only [hpe, Bool.false_eq_true, if_false]
      cases hfind : getMember db e u false with
      | none => simp
      | some m0 =>
        dsimp only
        by_cases how : m0.role = EntityRole.owner
        · rw [if_pos how]
          simp
        · rw [if_neg how]
          simp
  · intro db e u m hpe hfind how
    unfold removeMember
    rw [if_neg (by simp [hpe] : ¬ entityIsPersonal db e = true)]
    rw [hfind]
    dsimp only
    rw [if_neg how]

/-- C3, witness: the amended theorem applied to the last-admin organization:
the removal of the last active admin-tier member goes through. -/
theorem removeMember_has_no_lastAdmin_guard_witness :
    removeMember dbLastAdmin 0 3 ≠
      Except.error MemberErr.invariantViolation ∧
    removeMember dbLastAdmin 0 3 = Except.ok { dbLastAdmin with
      members := dbLastAdmin.members.map (fun x =>
        if x.entity_id == 0 && x.user_id == 3 then
          { x with is_active := false }
        else x) } := by
  refine ⟨removeMember_has_no_lastAdmin_guard.1 dbLastAdmin 0 3, ?_⟩
  exact removeMember_has_no_lastAdmin_guard.2 dbLastAdmin 0 3
    ⟨0, 0, 3, EntityRole.admin, true⟩ (by decide) (by decide) (by decide)

/-! ## Claim C9 -/

/-- C9: normalisation followed by validation: any input with at least 8
characters of `[a-z0-9]` left after lowercasing and stripping passes
`validateSlug` after `normalizeSlug`; an arbitrary input (the empty string)
need not. -/
theorem validateSlug_after_normalizeSlug :
    (∀ s : String, 8 ≤ (slugFilter s).length →
        validateSlug (normalizeSlug s) = true) ∧
    validateSlug (normalizeSlug "") = false := by
  constructor
  · intro s h8
    unfold validateSlug normalizeSlug
    have hlen : (String.mk ((slugFilter s).take 12)).length =
        min 12 (slugFilter s).length := by
      show ((slugFilter s).take 12).length = _
      exact List.length_take ..
    simp only [Bool.and_eq_true, decide_eq_true_eq, hlen]
    refine ⟨⟨?_, ?_⟩, ?_⟩
    · omega
    · omega
    · apply List.all_eq_true.mpr
      intro c hc
      have hc' : c ∈ slugFilter s := List.take_subset 12 _ hc
      exact List.of_mem_filter hc'
  · decide

/-- C9, witness: the theorem applied to a concrete mixed-case input with
more than 8 valid characters. -/
theorem validateSlug_after_normalizeSlug_witness :
    validateSlug (normalizeSlug "My Org 2024!") = true :=
  validateSlug_after_normalizeSlug.1 "My Org 2024!" (by decide)

/-! ## Claim C10 -/

/-- C10: on a pair that already has an active membership, `addMember` takes
the insert branch and is rejected by the unique `(entity_id, user_id)`
constraint, for every requested role — it never reactivates or updates the
existing active row. -/
theorem addMember_on_active_membership_fails :
    ∀ (db : DB) (e u : Nat) (r : EntityRole) (m : MemberRow),
      noDupPairs db.members = true →
      getMember db e u false = some m →
      addMember db e u r = Except.error MemberErr.uniqueViolation := by
  intro db e u r m hwf hfind
  have hmem : m ∈ db.members := List.mem_of_find?_eq_some hfind
  have hpred := List.find?_some hfind
  simp only [Bool.false_or, Bool.and_eq_true, beq_iff_eq] at hpred
  unfold addMember
  cases hfind2 : getMember db e u true with
  | none =>
    exfalso
    have := List.find?_eq_none.mp hfind2 m hmem
    simp [hpred.1.1, hpred.1.2] at this
  | some ex =>
    have hexmem : ex ∈ db.members := List.mem_of_find?_eq_some hfind2
    have hexpred := List.find?_some hfind2
    simp only [Bool.true_or, Bool.and_true, Bool.and_eq_true, beq_iff_eq]
      at hexpred
    have hme : ex = m := noDupPairs_eq_of_mem hwf hexmem hmem
      (hexpred.1.trans hpred.1.1.symm) (hexpred.2.trans hpred.1.2.symm)
    have hact : ex.is_active = true := by rw [hme]; exact hpred.2
    dsimp only
    rw [if_pos hact]
    unfold insertMember
    rw [if_pos (List.any_eq_true.mpr
      ⟨m, hmem, by simp [hpred.1.1, hpred.1.2]⟩)]

/-- A store holding one entity with one active member (user 7). -/
def dbActivePair : DB :=
  { entities := [⟨0, "orgslug2", EntityType.organization, "Org2"⟩],
    members := [⟨0, 0, 7, EntityRole.member, true⟩],
    invitations := [],
    users := [],
    nextEntityId := 1, nextMemberId := 1, nextInvitationId := 1 }

/-- C10, witness: the theorem applied to the store with an active member —
re-adding user 7 with a different role fails on the constraint. -/
theorem addMember_on_active_membership_fails_witness :
    addMember dbActivePair 0 7 EntityRole.admin =
      Except.error MemberErr.uniqueViolation :=
  addMember_on_active_membership_fails dbActivePair 0 7 EntityRole.admin
    ⟨0, 0, 7, EntityRole.member, true⟩ (by decide) (by decide)

/-! ## Claim C5 -/

/-- A personal entity whose sole member (user 9) holds the owner role, as
`createPersonalEntity` writes it. -/
def dbPersonalEntity : DB :=
  { entities := [⟨0, "personal1", EntityType.personal, "Personal"⟩],
    members := [⟨0, 0, 9, EntityRole.owner, true⟩],
    invitations := [],
    users := [],
    nextEntityId := 1, nextMemberId := 1, nextInvitationId := 1 }

/-- C5, counterexample: on a personal entity, `canManageMembers` answers
true for the owner — the source consults only the role capability and, unlike
`canDeleteEntity` and `canInviteMembers`, has no personal-entity branch. -/
theorem canManageMembers_true_on_personal_entity :
    entityIsPersonal dbPersonalEntity 0 = true ∧
    canManageMembers dbPersonalEntity 0 9 = true := by
  refine ⟨by decide, by decide⟩

/-- C5 (amended): on personal entities `canDeleteEntity` and
`canInviteMembers` always answer false, but `canManageMembers` ignores the
entity kind and answers exactly the capability of the member's role. -/
theorem personal_entity_boolean_checks :
    (∀ (db : DB) (e u : Nat), entityIsPersonal db e = true →
        canDeleteEntity db e u = false) ∧
    (∀ (db : DB) (e u : Nat), entityIsPersonal db e = true →
        canInviteMembers db e u = false) ∧
    (∀ (db : DB) (e u : Nat),
        canManageMembers db e u = (match permGetUserRole db e u with
          | some r => (ROLE_PERMISSIONS r).canManageMembers
          | none => false)) := by
  refine ⟨?_, ?_, ?_⟩
  · intro db e u hpe
    unfold canDeleteEntity
    unfold entityIsPersonal at hpe
    cases hent : getEntityRow db e with
    | none => rfl
    | some ent =>
      rw [hent] at hpe
      dsimp only
      rw [if_pos hpe]
  · intro db e u hpe
    unfold canInviteMembers
    unfold entityIsPersonal at hpe
    cases hent : getEntityRow db e with
    | none => rfl
    | some ent =>
      rw [hent] at hpe
      dsimp only
      rw [if_pos hpe]
  · intro db e u
    unfold canManageMembers getUserPermissions
    cases hrole : permGetUserRole db e u <;> simp [hrole]

/-- C5, witness: the amended theorem applied to the personal entity store:
delete and invite answer false there, while manage-members answers the
owner capability. -/
theorem personal_entity_boolean_checks_witness :
    canDeleteEntity dbPersonalEntity 0 9 = false ∧
    canInviteMembers dbPersonalEntity 0 9 = false ∧
    canManageMembers dbPersonalEntity 0 9 =
      (match permGetUserRole dbPersonalEntity 0 9 with
        | some r => (ROLE_PERMISSIONS r).canManageMembers
        | none => false) :=
  ⟨personal_entity_boolean_checks.1 dbPersonalEntity 0 9 (by decide),
   personal_entity_boolean_checks.2.1 dbPersonalEntity 0 9 (by decide),
   personal_entity_boolean_checks.2.2 dbPersonalEntity 0 9⟩

/-! ## Claim C4 -/

/-- A status update by invitation id commutes with the token lookup: the
looked-up row is the old row with the update applied when the id matches. -/
theorem getInvitationByToken_setStatus (db : DB) (invId : Nat)
    (st : InvitationStatus) (acc : Option Nat) (t : String) :
    getInvitationByToken (setInvitationStatus db invId st acc) t =
      (getInvitationByToken db t).map (fun i =>
        if i.id == invId then
          { i with status := st, accepted_at := acc.elim i.accepted_at some }
        else i) := by
  unfold getInvitationByToken setInvitationStatus
  have hpred : ((fun i : InvitationRow => i.token == t) ∘ fun i =>
      if i.id == invId then
        { i with status := st, accepted_at := acc.elim i.accepted_at some }
      else i) = (fun i : InvitationRow => i.token == t) := by
    funext i
    by_cases hc : (i.id == invId) = true <;> simp [Function.comp, hc]
  rw [List.find?_map, hpred]

/-- C4: accepting a pending invitation past its expiry persists
`status := expired`, fails with the expired error and inserts no membership;
a second accept of the same token fails with the not-pending error and
changes nothing. -/
theorem acceptInvitation_lazy_expiry :
    ∀ (db : DB) (t : String) (u now u2 now2 : Nat) (inv : InvitationRow),
      getInvitationByToken db t = some inv →
      inv.status = InvitationStatus.pending →
      inv.expires_at < now →
      (acceptInvitation db t u now).2 = Except.error InvErr.expired ∧
      (acceptInvitation db t u now).1.members = db.members ∧
      (acceptInvitation db t u now).1 =
        setInvitationStatus db inv.id InvitationStatus.expired none ∧
      acceptInvitation (acceptInvitation db t u now).1 t u2 now2 =
        ((acceptInvitation db t u now).1, Except.error InvErr.notPending) := by
  intro db t u now u2 now2 inv hfind hpend hexp
  have hnotne : ¬(inv.status ≠ InvitationStatus.pending) := by simp [hpend]
  have hfirst : acceptInvitation db t u now =
      (setInvitationStatus db inv.id InvitationStatus.expired none,
        Except.error InvErr.expired) := by
    unfold acceptInvitation
    rw [hfind]
    dsimp only
    rw [if_neg hnotne, if_pos hexp]
  refine ⟨by rw [hfirst], by rw [hfirst]; rfl, by rw [hfirst], ?_⟩
  rw [hfirst]
  show acceptInvitation
      (setInvitationStatus db inv.id InvitationStatus.expired none) t u2 now2
        = _
  unfold acceptInvitation
  rw [getInvitationByToken_setStatus, hfind]
  simp only [Option.map_some', beq_self_eq_true, if_true]
  rw [if_pos (show InvitationStatus.expired ≠ InvitationStatus.pending
    by decide)]

/-- An organization with a pending invitation whose expiry (time 10) lies in
the past of the call (time 50). -/
def dbExpiredInv : DB :=
  { entities := [⟨0, "orgslug4", EntityType.organization, "Org4"⟩],
    members := [],
    invitations := [⟨0, 0, "a@b.c", EntityRole.member,
      InvitationStatus.pending, 1, "tok1", 10, none⟩],
    users := [],
    nextEntityId := 1, nextMemberId := 0, nextInvitationId := 1 }

/-- C4, witness: the theorem applied to the expired-invitation store. -/
theorem acceptInvitation_lazy_expiry_witness :
    (acceptInvitation dbExpiredInv "tok1" 7 50).2 =
      Except.error InvErr.expired ∧
    (acceptInvitation dbExpiredInv "tok1" 7 50).1.members =
      dbExpiredInv.members ∧
    (acceptInvitation dbExpiredInv "tok1" 7 50).1 =
      setInvitationStatus dbExpiredInv 0 InvitationStatus.expired none ∧
    acceptInvitation (acceptInvitation dbExpiredInv "tok1" 7 50).1
        "tok1" 8 60 =
      ((acceptInvitation dbExpiredInv "tok1" 7 50).1,
        Except.error InvErr.notPending) :=
  acceptInvitation_lazy_expiry dbExpiredInv "tok1" 7 50 8 60
    ⟨0, 0, "a@b.c", EntityRole.member, InvitationStatus.pending, 1, "tok1",
      10, none⟩ (by decide) rfl (by decide)

/-! ## Claim C2 -/

/-- An organization with a pending invitation for an email whose user (7)
holds an inactive membership row in the entity. -/
def dbInactivePair : DB :=
  { entities := [⟨0, "orgslug3", EntityType.organization, "Org3"⟩],
    members := [⟨0, 0, 7, EntityRole.member, false⟩],
    invitations := [⟨0, 0, "e2@x.y", EntityRole.admin,
      InvitationStatus.pending, 1, "tok2", 100, none⟩],
    users := [],
    nextEntityId := 1, nextMemberId := 1, nextInvitationId := 1 }

/-- C2, counterexample: on the same store, `addMember` applies the
reactivate-or-insert rule and succeeds by reactivating the inactive row with
the new role, while `acceptInvitation` performs a plain insert, hits the
unique `(entity_id, user_id)` constraint, fails, and leaves the invitation
pending — accept does not use the reactivate-or-insert rule of add. -/
theorem acceptInvitation_does_not_reactivate :
    acceptInvitation dbInactivePair "tok2" 7 50 =
      (dbInactivePair, Except.error InvErr.memberInsertConflict) ∧
    addMember dbInactivePair 0 7 EntityRole.admin =
      Except.ok ({ dbInactivePair with
        members := [⟨0, 0, 7, EntityRole.admin, true⟩] },
        ⟨0, 0, 7, EntityRole.admin, true⟩) := by
  refine ⟨by decide, by decide⟩

/-- C2 (amended): a successful accept of a pending, unexpired invitation
inserts a fresh active membership row carrying the invitation's role and, in
the same step, marks the invitation accepted with `acceptedAt = now`; but the
insert is plain (not the reactivate-or-insert rule of `addMember`): it
succeeds exactly when no membership row — active or inactive — exists for the
pair, and with an existing row the accept fails on the unique-pair constraint
with no state change. -/
theorem acceptInvitation_insert_behaviour :
    (∀ (db : DB) (t : String) (u now : Nat) (inv : InvitationRow),
        getInvitationByToken db t = some inv →
        inv.status = InvitationStatus.pending →
        ¬(inv.expires_at < now) →
        (db.members.any fun m =>
          m.entity_id == inv.entity_id && m.user_id == u) = false →
        acceptInvitation db t u now =
          (setInvitationStatus { db with
              members := db.members ++
                [⟨db.nextMemberId, inv.entity_id, u, inv.role, true⟩],
              nextMemberId := db.nextMemberId + 1 }
            inv.id InvitationStatus.accepted (some now), Except.ok ())) ∧
    (∀ (db : DB) (t : String) (u now : Nat) (inv : InvitationRow),
        getInvitationByToken db t = some inv →
        inv.status = InvitationStatus.pending →
        ¬(inv.expires_at < now) →
        (db.members.any fun m =>
          m.entity_id == inv.entity_id && m.user_id == u) = true →
        acceptInvitation db t u now =
          (db, Except.error InvErr.memberInsertConflict)) := by
  constructor
  · intro db t u now inv hfind hpend hexp hany
    unfold acceptInvitation
    rw [hfind]
    dsimp only
    rw [if_neg (by simp [hpend] : ¬inv.status ≠ InvitationStatus.pending),
      if_neg hexp, if_neg (by simp [hany])]
  · intro db t u now inv hfind hpend hexp hany
    unfold acceptInvitation
    rw [hfind]
    dsimp only
    rw [if_neg (by simp [hpend] : ¬inv.status ≠ InvitationStatus.pending),
      if_neg hexp, if_pos hany]

/-- An organization with a pending, unexpired invitation and no membership
row for the accepting user. -/
def dbFreshInv : DB :=
  { entities := [⟨0, "orgslug5", EntityType.organization, "Org5"⟩],
    members := [],
    invitations := [⟨0, 0, "e3@x.y", EntityRole.admin,
      InvitationStatus.pending, 1, "tok3", 100, none⟩],
    users := [],
    nextEntityId := 1, nextMemberId := 0, nextInvitationId := 1 }

/-- C2, witness: the amended theorem applied concretely — a fresh pair
accepts successfully with the inserted membership and accepted status, and
the inactive-row store fails the constraint. -/
theorem acceptInvitation_insert_behaviour_witness :
    acceptInvitation dbFreshInv "tok3" 7 50 =
      (setInvitationStatus { dbFreshInv with
          members := dbFreshInv.members ++
            [⟨dbFreshInv.nextMemberId, 0, 7, EntityRole.admin, true⟩],
          nextMemberId := dbFreshInv.nextMemberId + 1 }
        0 InvitationStatus.accepted (some 50), Except.ok ()) ∧
    acceptInvitation dbInactivePair "tok2" 7 50 =
      (dbInactivePair, Except.error InvErr.memberInsertConflict) :=
  ⟨acceptInvitation_insert_behaviour.1 dbFreshInv "tok3" 7 50
      ⟨0, 0, "e3@x.y", EntityRole.admin, InvitationStatus.pending, 1, "tok3",
        100, none⟩ (by decide) rfl (by decide) (by decide),
   acceptInvitation_insert_behaviour.2 dbInactivePair "tok2" 7 50
      ⟨0, 0, "e2@x.y", EntityRole.admin, InvitationStatus.pending, 1, "tok2",
        100, none⟩ (by decide) rfl (by decide) (by decide)⟩

/-! ## Claim C6 -/

/-- When exactly one element of a list satisfies a predicate, every element
satisfying it is that one. -/
theorem countP_one_unique {α : Type} {l : List α} {p : α → Bool} {a : α}
    (hc : l.countP p = 1) (ha : a ∈ l) (hpa : p a = true) :
    ∀ b ∈ l, p b = true → b = a := by
  intro b hb hpb
  rw [List.countP_eq_length_filter] at hc
  obtain ⟨c, hcl⟩ := List.length_eq_one.mp hc
  have ha' : a ∈ l.filter p := List.mem_filter.mpr ⟨ha, hpa⟩
  have hb' : b ∈ l.filter p := List.mem_filter.mpr ⟨hb, hpb⟩
  rw [hcl] at ha' hb'
  rw [List.mem_singleton.mp ha', List.mem_singleton.mp hb']

/-- An organization where user 7 — the holder of `e1@example.com` — has only
an inactive membership row. -/
def dbInactiveEmail : DB :=
  { entities := [⟨0, "orgslug6", EntityType.organization, "Org6"⟩],
    members := [⟨0, 0, 7, EntityRole.member, false⟩],
    invitations := [],
    users := [⟨7, "e1@example.com"⟩],
    nextEntityId := 1, nextMemberId := 1, nextInvitationId := 1 }

/-- C6, counterexample: the entity has no active membership at all, yet
inviting `e1@example.com` fails with the already-a-member error — the
membership check of `createInvitation` does not filter on `is_active`, so
AlreadyMember does not hold exactly on active memberships. -/
theorem createInvitation_alreadyMember_on_inactive :
    (dbInactiveEmail.members.all fun m => !m.is_active) = true ∧
    createInvitation dbInactiveEmail 0 1 "e1@example.com" EntityRole.member
      "tokA" 100 = Except.error InvErr.alreadyMember := by
  refine ⟨by decide, by decide⟩

/-- C6 (amended): `createInvitation` fails with AlreadyMember exactly when
the email belongs to a user with any membership row — active or inactive —
in the entity; otherwise it fails with DuplicateInvitation exactly when a
pending invitation exists for the pair; otherwise it inserts a pending
invitation; and declining the only pending invitation for the pair makes a
re-invite succeed (when the email's user holds no membership row). -/
theorem createInvitation_checks :
    (∀ (db : DB) (e inviter : Nat) (email : String) (r : EntityRole)
        (tok : String) (exp : Nat),
        memberRowForEmail db e email = true →
        createInvitation db e inviter email r tok exp =
          Except.error InvErr.alreadyMember) ∧
    (∀ (db : DB) (e inviter : Nat) (email : String) (r : EntityRole)
        (tok : String) (exp : Nat),
        memberRowForEmail db e email = false →
        pendingInvitationExists db e email = true →
        createInvitation db e inviter email r tok exp =
          Except.error InvErr.duplicateInvitation) ∧
    (∀ (db : DB) (e inviter : Nat) (email : String) (r : EntityRole)
        (tok : String) (exp : Nat),
        memberRowForEmail db e email = false →
        pendingInvitationExists db e email = false →
        createInvitation db e inviter email r tok exp =
          Except.ok ({ db with
              invitations := db.invitations ++
                [⟨db.nextInvitationId, e, email, r, InvitationStatus.pending,
                  inviter, tok, exp, none⟩],
              nextInvitationId := db.nextInvitationId + 1 },
            ⟨db.nextInvitationId, e, email, r, InvitationStatus.pending,
              inviter, tok, exp, none⟩)) ∧
    (∀ (db : DB) (t : String) (inv : InvitationRow) (inviter : Nat)
        (r : EntityRole) (tok2 : String) (exp2 : Nat),
        getInvitationByToken db t = some inv →
        inv.status = InvitationStatus.pending →
        (db.invitations.countP fun i => i.entity_id == inv.entity_id &&
          i.email == inv.email && i.status == InvitationStatus.pending) = 1 →
        memberRowForEmail db inv.entity_id inv.email = false →
        ∃ db2 db3 row,
          declineInvitation db t = Except.ok db2 ∧
          createInvitation db2 inv.entity_id inviter inv.email r tok2 exp2 =
            Except.ok (db3, row)) := by
  have hok : ∀ (db : DB) (e inviter : Nat) (email : String) (r : EntityRole)
      (tok : String) (exp : Nat),
      memberRowForEmail db e email = false →
      pendingInvitationExists db e email = false →
      createInvitation db e inviter email r tok exp =
        Except.ok ({ db with
            invitations := db.invitations ++
              [⟨db.nextInvitationId, e, email, r, InvitationStatus.pending,
                inviter, tok, exp, none⟩],
            nextInvitationId := db.nextInvitationId + 1 },
          ⟨db.nextInvitationId, e, email, r, InvitationStatus.pending,
            inviter, tok, exp, none⟩) := by
    intro db e inviter email r tok exp h1 h2
    unfold createInvitation
    rw [if_neg (by simp [h1]), if_neg (by simp [h2])]
  refine ⟨?_, ?_, hok, ?_⟩
  · intro db e inviter email r tok exp h1
    unfold createInvitation
    rw [if_pos h1]
  · intro db e inviter email r tok exp h1 h2
    unfold createInvitation
    rw [if_neg (by simp [h1]), if_pos h2]
  · intro db t inv inviter r tok2 exp2 hfind hpend hcount hmem
    have hinvmem : inv ∈ db.invitations := List.mem_of_find?_eq_some hfind
    have hdecl : declineInvitation db t =
        Except.ok (setInvitationStatus db inv.id InvitationStatus.declined
          none) := by
      unfold declineInvitation
      rw [hfind]
      dsimp only
      rw [if_neg (by simp [hpend])]
    refine ⟨setInvitationStatus db inv.id InvitationStatus.declined none,
      _, _, hdecl, hok _ _ _ _ _ _ _ ?_ ?_⟩
    · exact hmem
    · unfold pendingInvitationExists setInvitationStatus
      apply List.any_eq_false.mpr
      intro i hi
      obtain ⟨j, hj, rfl⟩ := List.mem_map.mp hi
      intro hcontra
      by_cases hid : (j.id == inv.id) = true
      · simp only [hid, if_true, Bool.and_eq_true, beq_iff_eq] at hcontra
        exact absurd hcontra.2 (by decide)
      · simp only [hid, if_false] at hcontra
        have hj_is_inv : j = inv := countP_one_unique hcount hinvmem
          (by simp [hpend]) j hj hcontra
        rw [hj_is_inv] at hid
        simp at hid

/-- An organization holding the single pending invitation for
`e1@example.com`, whose user (7) has no membership row. -/
def dbInviteFlow : DB :=
  { entities := [⟨0, "orgslug7", EntityType.organization, "Org7"⟩],
    members := [],
    invitations := [⟨0, 0, "e1@example.com", EntityRole.member,
      InvitationStatus.pending, 1, "tokB", 100, none⟩],
    users := [⟨7, "e1@example.com"⟩],
    nextEntityId := 1, nextMemberId := 0, nextInvitationId := 1 }

/-- C6, witness: the amended theorem applied concretely — the inactive-member
store rejects with AlreadyMember, the pending-invitation store rejects a
duplicate with DuplicateInvitation, a fresh email is invited successfully,
and decline-then-re-invite succeeds. -/
theorem createInvitation_checks_witness :
    createInvitation dbInactiveEmail 0 1 "e1@example.com" EntityRole.admin
      "tokE" 100 = Except.error InvErr.alreadyMember ∧
    createInvitation dbInviteFlow 0 1 "e1@example.com" EntityRole.member
      "tokF" 100 = Except.error InvErr.duplicateInvitation ∧
    createInvitation dbInviteFlow 0 1 "other@x.y" EntityRole.member
      "tokG" 100 = Except.ok ({ dbInviteFlow with
        invitations := dbInviteFlow.invitations ++
          [⟨1, 0, "other@x.y", EntityRole.member, InvitationStatus.pending,
            1, "tokG", 100, none⟩],
        nextInvitationId := 2 },
      ⟨1, 0, "other@x.y", EntityRole.member, InvitationStatus.pending, 1,
        "tokG", 100, none⟩) ∧
    (∃ db2 db3 row,
      declineInvitation dbInviteFlow "tokB" = Except.ok db2 ∧
      createInvitation db2 0 1 "e1@example.com" EntityRole.member "tokH" 200 =
        Except.ok (db3, row)) :=
  ⟨createInvitation_checks.1 dbInactiveEmail 0 1 "e1@example.com"
      EntityRole.admin "tokE" 100 (by decide),
   createInvitation_checks.2.1 dbInviteFlow 0 1 "e1@example.com"
      EntityRole.member "tokF" 100 (by decide) (by decide),
   createInvitation_checks.2.2.1 dbInviteFlow 0 1 "other@x.y"
      EntityRole.member "tokG" 100 (by decide) (by decide),
   createInvitation_checks.2.2.2 dbInviteFlow "tokB"
      ⟨0, 0, "e1@example.com", EntityRole.member, InvitationStatus.pending,
        1, "tokB", 100, none⟩ 1 EntityRole.member "tokH" 200
      (by decide) rfl (by decide) (by decide)⟩

/-! ## Claim C7 -/

/-- Appending an entity with an unused id: looking that id up finds the new
row. -/
theorem find?_entity_append_self (l : List EntityRow) (E : EntityRow)
    (hfresh : ∀ ent ∈ l, ent.id ≠ E.id) :
    (l ++ [E]).find? (fun ent => ent.id == E.id) = some E := by
  rw [List.find?_append]
  have hl : l.find? (fun ent => ent.id == E.id) = none :=
    List.find?_eq_none.mpr (fun ent hent => by simp [hfresh ent hent])
  rw [hl]
  simp [List.find?]

/-- Appending an entity with an unused id: looking up any other id is
unchanged. -/
theorem find?_entity_append_other (l : List EntityRow) (E : EntityRow)
    (x : Nat) (hx : x ≠ E.id) :
    (l ++ [E]).find? (fun ent => ent.id == x) =
      l.find? (fun ent => ent.id == x) := by
  rw [List.find?_append]
  have hbeq : (E.id == x) = false := by
    simp only [beq_eq_false_iff_ne, ne_eq]
    exact fun h => hx h.symm
  have hE : [E].find? (fun ent => ent.id == x) = none := by
    simp [List.find?, hbeq]
  rw [hE]
  cases l.find? (fun ent => ent.id == x) <;> rfl

/-- C7: `getOrCreatePersonalEntity` is idempotent — under fresh id
generation, the second (and every later) call returns exactly the same
store and entity as the first, so a sequence of N sequential calls yields
the same entity id N times and creates at most the one personal entity the
first call may have created (the first call adds at most one entity row). -/
theorem getOrCreatePersonalEntity_idempotent :
    ∀ (db : DB) (u : Nat) (s n s2 n2 : String),
      freshEntityId db = true →
      getOrCreatePersonalEntity (getOrCreatePersonalEntity db u s n).1 u s2 n2
        = getOrCreatePersonalEntity db u s n ∧
      (getOrCreatePersonalEntity db u s n).1.entities.length ≤
        db.entities.length + 1 := by
  intro db u s n s2 n2 hfresh
  unfold freshEntityId at hfresh
  simp only [Bool.and_eq_true, List.all_eq_true, decide_eq_true_eq] at hfresh
  cases hlook : lookupPersonalEntity db u with
  | some ent =>
    have h1 : getOrCreatePersonalEntity db u s n = (db, ent) := by
      unfold getOrCreatePersonalEntity
      rw [hlook]
    constructor
    · rw [h1]
      dsimp only
      unfold getOrCreatePersonalEntity
      rw [hlook]
    · rw [h1]
      exact Nat.le_succ _
  | none =>
    have h1 : getOrCreatePersonalEntity db u s n =
        createPersonalEntity db u s n := by
      unfold getOrCreatePersonalEntity
      rw [hlook]
    have hcreate : createPersonalEntity db u s n =
        ({ db with
            entities := db.entities ++
              [⟨db.nextEntityId, s, EntityType.personal, n⟩],
            members := db.members ++
              [⟨db.nextMemberId, db.nextEntityId, u, EntityRole.owner, true⟩],
            nextEntityId := db.nextEntityId + 1,
            nextMemberId := db.nextMemberId + 1 },
          ⟨db.nextEntityId, s, EntityType.personal, n⟩) := rfl
    -- the id lookups in the extended store
    have hget_self : getEntityRow (createPersonalEntity db u s n).1
        db.nextEntityId = some ⟨db.nextEntityId, s, EntityType.personal, n⟩ := by
      rw [hcreate]
      unfold getEntityRow
      dsimp only
      exact find?_entity_append_self db.entities
        ⟨db.nextEntityId, s, EntityType.personal, n⟩
        (fun ent hent => hfresh.1 ent hent)
    have hget_other : ∀ x, x ≠ db.nextEntityId →
        getEntityRow (createPersonalEntity db u s n).1 x = getEntityRow db x := by
      intro x hx
      rw [hcreate]
      unfold getEntityRow
      dsimp only
      exact find?_entity_append_other db.entities
        ⟨db.nextEntityId, s, EntityType.personal, n⟩ x hx
    -- no member row of the original store matches the lookup predicate
    have hfind0 : db.members.find? (fun m =>
        m.user_id == u && m.role == EntityRole.owner && m.is_active &&
          (match getEntityRow db m.entity_id with
            | some ent => ent.entity_type == EntityType.personal
            | none => false)) = none := by
      cases hf : db.members.find? (fun m =>
          m.user_id == u && m.role == EntityRole.owner && m.is_active &&
            (match getEntityRow db m.entity_id with
              | some ent => ent.entity_type == EntityType.personal
              | none => false)) with
      | none => rfl
      | some m =>
        exfalso
        have hpred := List.find?_some hf
        cases hge : getEntityRow db m.entity_id with
        | none =>
          rw [hge] at hpred
          simp at hpred
        | some ent =>
          have : lookupPersonalEntity db u = some ent := by
            unfold lookupPersonalEntity
            rw [hf]
            simpa using hge
          rw [this] at hlook
          cases hlook
    -- the lookup in the extended store finds the new membership
    have hlook1 : lookupPersonalEntity (createPersonalEntity db u s n).1 u =
        some ⟨db.nextEntityId, s, EntityType.personal, n⟩ := by
      unfold lookupPersonalEntity
      have hmembers : (createPersonalEntity db u s n).1.members =
          db.members ++
            [⟨db.nextMemberId, db.nextEntityId, u, EntityRole.owner, true⟩] := by
        rw [hcreate]
      rw [hmembers, List.find?_append]
      have hold : db.members.find? (fun m =>
          m.user_id == u && m.role == EntityRole.owner && m.is_active &&
            (match getEntityRow (createPersonalEntity db u s n).1 m.entity_id
              with
              | some ent => ent.entity_type == EntityType.personal
              | none => false)) = none := by
        apply List.find?_eq_none.mpr
        intro m hm
        have hne : m.entity_id ≠ db.nextEntityId := hfresh.2 m hm
        rw [hget_other m.entity_id hne]
        have := List.find?_eq_none.mp hfind0 m hm
        simpa using this
      rw [hold]
      have hnew : [(⟨db.nextMemberId, db.nextEntityId, u, EntityRole.owner,
          true⟩ : MemberRow)].find? (fun m =>
            m.user_id == u && m.role == EntityRole.owner && m.is_active &&
              (match getEntityRow (createPersonalEntity db u s n).1 m.entity_id
                with
                | some ent => ent.entity_type == EntityType.personal
                | none => false)) =
          some ⟨db.nextMemberId, db.nextEntityId, u, EntityRole.owner, true⟩ := by
        simp [List.find?, hget_self]
      rw [Option.none_or, hnew, Option.some_bind]
      exact hget_self
    constructor
    · rw [h1]
      unfold getOrCreatePersonalEntity
      rw [hlook1, hcreate]
    · rw [h1, hcreate]
      simp

/-- The empty store, with fresh id generation. -/
def dbEmpty : DB :=
  { entities := [], members := [], invitations := [], users := [],
    nextEntityId := 0, nextMemberId := 0, nextInvitationId := 0 }

/-- C7, witness: the theorem applied to the empty store — two sequential
calls for user 42 return the identical store and entity, and at most one
entity is ever inserted. -/
theorem getOrCreatePersonalEntity_idempotent_witness :
    getOrCreatePersonalEntity
        (getOrCreatePersonalEntity dbEmpty 42 "slugaaaa" "Personal").1 42
        "slugbbbb" "Personal" =
      getOrCreatePersonalEntity dbEmpty 42 "slugaaaa" "Personal" ∧
    (getOrCreatePersonalEntity dbEmpty 42 "slugaaaa" "Personal").1.entities.length
      ≤ dbEmpty.entities.length + 1 :=
  getOrCreatePersonalEntity_idempotent dbEmpty 42 "slugaaaa" "Personal"
    "slugbbbb" "Personal" (by decide)

/-! ## Claim C8 -/

/-- C8: `processNewUserInvitations` attempts each pending invitation in
isolation: when the first fetched invitation fails to accept, the call
neither aborts nor raises — it carries the post-failure store (the failure's
own persisted side effects included) into the processing of all remaining
invitations, and returns that result.  The function is total: no failure of
an individual accept can fail the signup flow. -/
theorem processNewUserInvitations_isolates_failures :
    ∀ (db : DB) (u now : Nat) (email : String) (i1 : InvitationRow)
      (rest : List InvitationRow) (e : InvErr),
      getUserPendingInvitations db email = i1 :: rest →
      (acceptInvitation db i1.token u now).2 = Except.error e →
      processNewUserInvitations db u email now =
        processInvList u now (acceptInvitation db i1.token u now).1 rest := by
  intro db u now email i1 rest e hlist _herr
  unfold processNewUserInvitations
  rw [hlist]
  rfl

/-- An organization with two pending invitations for `n@u.v`: the first is
already past its expiry at call time 50, the second is not. -/
def dbTwoInvites : DB :=
  { entities := [⟨0, "orgslug8", EntityType.organization, "Org8"⟩],
    members := [],
    invitations := [⟨0, 0, "n@u.v", EntityRole.member,
        InvitationStatus.pending, 1, "tokC", 10, none⟩,
      ⟨1, 0, "n@u.v", EntityRole.admin, InvitationStatus.pending, 1, "tokD",
        100, none⟩],
    users := [⟨7, "n@u.v"⟩],
    nextEntityId := 1, nextMemberId := 0, nextInvitationId := 2 }

/-- C8, witness: the theorem applied to the two-invitation store, where the
first accept fails with the expired error; the second invitation is still
processed from the post-failure store. -/
theorem processNewUserInvitations_isolates_failures_witness :
    processNewUserInvitations dbTwoInvites 7 "n@u.v" 50 =
      processInvList 7 50 (acceptInvitation dbTwoInvites "tokC" 7 50).1
        [⟨1, 0, "n@u.v", EntityRole.admin, InvitationStatus.pending, 1,
          "tokD", 100, none⟩] :=
  processNewUserInvitations_isolates_failures dbTwoInvites 7 50 "n@u.v"
    ⟨0, 0, "n@u.v", EntityRole.member, InvitationStatus.pending, 1, "tokC",
      10, none⟩
    [⟨1, 0, "n@u.v", EntityRole.admin, InvitationStatus.pending, 1, "tokD",
      100, none⟩]
    InvErr.expired (by decide) (by decide)

/-- Sanity check of the isolation end to end: processing the two-invitation
store marks the stale invitation expired, accepts the later one, and inserts
the membership it grants — the early failure did not stop the loop. -/
theorem processNewUserInvitations_end_to_end :
    (processNewUserInvitations dbTwoInvites 7 "n@u.v" 50).invitations =
      [⟨0, 0, "n@u.v", EntityRole.member, InvitationStatus.expired, 1,
          "tokC", 10, none⟩,
        ⟨1, 0, "n@u.v", EntityRole.admin, InvitationStatus.accepted, 1,
          "tokD", 100, some 50⟩] ∧
    (processNewUserInvitations dbTwoInvites 7 "n@u.v" 50).members =
      [⟨0, 0, 7, EntityRole.admin, true⟩] := by
  refine ⟨by decide, by decide⟩

end EntityService
